import Mathlib

/-!
Verification of the load-balancer reconcile queue of the
cloudstack ingress controller (package cloudstack, files
service_queue.go and instances.go).

The Go code is shallowly embedded: the queue map becomes an association
list, Go time.Time becomes Int (an absolute instant; time.Until t > 0
becomes now < t), errors become Option String / Except String, and the
external collaborators (node registry, LB adapter, kube client) become
record values of function type so every theorem quantifies over their
behavior.  The registry, lock table and adapter implementations are not
part of the analysed sources; only their interfaces are used here.
-/

/-- Models Go type serviceKey: the (namespace, name) pair identifying a
Service.  The Go field namespace is called ns because namespace is a
Lean keyword. -/
structure serviceKey where
  ns : String
  name : String
deriving DecidableEq

/-- Models the part of corev1.Service the queue code reads: the
namespace, the name, and an opaque payload standing for the rest of the
object so that distinct snapshots of one service can be told apart. -/
structure Service where
  ns : String
  name : String
  payload : Nat
deriving DecidableEq

/-- Models Service.DeepCopy(): with value semantics a deep copy is the
value itself. -/
def Service.deepCopy (s : Service) : Service := s

/-- Models Go type loadBalancer as far as the queue code inspects it:
only the rule field (nil or not) matters to processQueueEntry. -/
structure loadBalancer where
  rule : Option Nat
deriving DecidableEq

/-- Models Go type queueEntry (service_queue.go lines 58-64).  start and
backoffUntil are instants on an Int time line. -/
structure queueEntry where
  service : Service
  lb : Option loadBalancer
  updatePool : Bool
  start : Int
  backoffUntil : Int
deriving DecidableEq

/-- Models Go type queueEntryWithNodeRecent (lines 66-69). -/
structure queueEntryWithNodeRecent where
  entry : queueEntry
  topRevision : Nat
deriving DecidableEq

/-- Models the engine view of a cluster node: its registry revision and
the identifiers the LB adapter needs. -/
structure nodeInfo where
  name : String
  revision : Nat
  hostID : String
  networkID : String
  projectID : String
deriving DecidableEq

/-- Interface of the node registry consumed by the queue
(nodesForService validates a push, nodesContainingService feeds the
priority computation in pop).  The implementation is external to the
analysed sources, so it is kept abstract. -/
structure nodeRegistry where
  nodesForService : Service → Except String (List nodeInfo)
  nodesContainingService : serviceKey → List nodeInfo

/-- The serviceKey derived from a service, as built at the top of push
(lines 89-92) and in the delete of pop (line 162). -/
def serviceKeyOf (s : Service) : serviceKey := ⟨s.ns, s.name⟩

/-- The key of the Service stored in an entry. -/
def qKeyOf (e : queueEntry) : serviceKey := serviceKeyOf e.service

/-- The queue map serviceKey → queueEntry as an association list. -/
abbrev queueMap := List (serviceKey × queueEntry)

/-- Map lookup. -/
def qlookup : queueMap → serviceKey → Option queueEntry
  | [], _ => none
  | (k', e) :: rest, k => if k' = k then some e else qlookup rest k

/-- Map store q[k] = e: replaces the binding when k is present,
appends it otherwise. -/
def qinsert : queueMap → serviceKey → queueEntry → queueMap
  | [], k, e => [(k, e)]
  | (k', e') :: rest, k, e =>
      if k' = k then (k, e) :: rest else (k', e') :: qinsert rest k e

/-- Map delete(q, k). -/
def qdelete (q : queueMap) (k : serviceKey) : queueMap :=
  q.filter (fun p => decide (p.1 ≠ k))

/-- The keys of the map are pairwise distinct (true of a Go map by
construction; an invariant of this list model). -/
def keysNodup (q : queueMap) : Prop := (q.map Prod.fst).Nodup

/-- Every binding stores the entry under the key derived from its own
service, as push guarantees. -/
def wfQueue (q : queueMap) : Prop := ∀ p ∈ q, p.1 = serviceKeyOf p.2.service

/-- Models updateLBNodeQueue.push (service_queue.go lines 85-116).  The
Go method mutates q.queue and returns an error; here it returns the new
map together with the error, the map being unchanged on error.  When
the key is already present the existing entry survives with its service
replaced by a deep copy of the incoming one and its lb cleared; its
updatePool, start and backoffUntil fields are not touched (lines
94-99).  On a fresh key the registry must validate the service first
(lines 101-106). -/
def push (reg : nodeRegistry) (q : queueMap) (entry : queueEntry) :
    queueMap × Option String :=
  match qlookup q (serviceKeyOf entry.service) with
  | some existing =>
      (qinsert q (serviceKeyOf entry.service)
        { existing with service := entry.service.deepCopy, lb := none }, none)
  | none =>
      match reg.nodesForService entry.service with
      | .error e => (q, some e)
      | .ok _ =>
          (qinsert q (serviceKeyOf entry.service)
            { entry with service := entry.service.deepCopy }, none)

/-- Models updateLBNodeQueue.pushWithBackoff (lines 78-83): stamps
backoffUntil = now + backoff, start = now, clears lb, then pushes. -/
def pushWithBackoff (reg : nodeRegistry) (now : Int) (q : queueMap)
    (entry : queueEntry) (backoff : Int) : queueMap × Option String :=
  push reg q { entry with backoffUntil := now + backoff, start := now, lb := none }

/-- Models the topRevision loop of pop (lines 125-131): the maximum
revision over the nodes currently containing the service, 0 if none. -/
def topRevisionFor (reg : nodeRegistry) (k : serviceKey) : Nat :=
  (reg.nodesContainingService k).foldl
    (fun acc n => if n.revision > acc then n.revision else acc) 0

/-- Builds the queueEntryWithNodeRecent of one binding (lines 132-135). -/
def extendOne (reg : nodeRegistry) (p : serviceKey × queueEntry) :
    queueEntryWithNodeRecent :=
  ⟨p.2, topRevisionFor reg p.1⟩

/-- Models the sort.Slice comparator of pop (lines 142-153).  Entries
in backoff sort last; among ready entries higher topRevision first and,
on equal topRevision, earlier start first. -/
def entryLess (now : Int) (a b : queueEntryWithNodeRecent) : Bool :=
  if now < a.entry.backoffUntil then false
  else if now < b.entry.backoffUntil then true
  else if a.topRevision = b.topRevision then decide (a.entry.start < b.entry.start)
  else decide (b.topRevision < a.topRevision)

/-- The head of the slice after sort.Slice with entryLess: a minimum of
the comparator, computed by a left fold.  sort.Slice is unstable and
the Go map iteration order is unspecified, so the code only guarantees
a comparator-minimal head; this fold picks one such element. -/
def selectBest (now : Int) (b : queueEntryWithNodeRecent)
    (l : List queueEntryWithNodeRecent) : queueEntryWithNodeRecent :=
  l.foldl (fun best e => if entryLess now e best then e else best) b

/-- Models updateLBNodeQueue.pop (lines 118-164).  Returns none where
the Go method returns ok = false (empty queue, or best entry still in
backoff), otherwise the chosen entry and the map with its key
deleted. -/
def pop (reg : nodeRegistry) (now : Int) : queueMap → Option (queueEntry × queueMap)
  | [] => none
  | p :: ps =>
      let best := selectBest now (extendOne reg p) (ps.map (extendOne reg))
      if now < best.entry.backoffUntil then none
      else some (best.entry, qdelete (p :: ps) (serviceKeyOf best.entry.service))

theorem qlookup_qinsert_self (q : queueMap) (k : serviceKey) (e : queueEntry) :
    qlookup (qinsert q k e) k = some e := by
  induction q with
  | nil => simp [qinsert, qlookup]
  | cons p rest ih =>
      by_cases h : p.1 = k
      · simp [qinsert, h, qlookup]
      · simp [qinsert, h, qlookup, ih]

theorem qinsert_of_lookup_none (q : queueMap) (k : serviceKey) (e : queueEntry)
    (h : qlookup q k = none) : qinsert q k e = q ++ [(k, e)] := by
  induction q with
  | nil => simp [qinsert]
  | cons p rest ih =>
      by_cases hp : p.1 = k
      · simp [qlookup, hp] at h
      · simp [qlookup, hp] at h
        simp [qinsert, hp, ih h]

theorem keys_qinsert_present (q : queueMap) (k : serviceKey) (e e0 : queueEntry)
    (h : qlookup q k = some e0) :
    (qinsert q k e).map Prod.fst = q.map Prod.fst := by
  induction q with
  | nil => simp [qlookup] at h
  | cons p rest ih =>
      by_cases hp : p.1 = k
      · simp [qinsert, hp]
      · simp [qlookup, hp] at h
        simp [qinsert, hp, ih h]

theorem qlookup_eq_none_iff (q : queueMap) (k : serviceKey) :
    qlookup q k = none ↔ k ∉ q.map Prod.fst := by
  induction q with
  | nil => simp [qlookup]
  | cons p rest ih =>
      obtain ⟨k', e'⟩ := p
      by_cases hp : k' = k
      · simp [qlookup, hp]
      · simp only [qlookup, if_neg hp, List.map_cons, List.mem_cons, not_or]
        rw [ih]
        constructor
        · intro hnk
          exact ⟨fun he => hp he.symm, hnk⟩
        · intro hh
          exact hh.2

theorem qlookup_mem_keys (q : queueMap) (k : serviceKey) (e : queueEntry)
    (h : qlookup q k = some e) : k ∈ q.map Prod.fst := by
  by_contra hk
  rw [← qlookup_eq_none_iff] at hk
  rw [h] at hk
  exact Option.noConfusion hk

theorem mem_of_qlookup (q : queueMap) (k : serviceKey) (e : queueEntry)
    (h : qlookup q k = some e) : (k, e) ∈ q := by
  induction q with
  | nil => simp [qlookup] at h
  | cons p rest ih =>
      obtain ⟨k', e'⟩ := p
      by_cases hp : k' = k
      · simp only [qlookup, if_pos hp, Option.some.injEq] at h
        subst hp
        subst h
        exact List.mem_cons_self _ _
      · simp only [qlookup, if_neg hp] at h
        exact List.mem_cons_of_mem _ (ih h)

theorem qlookup_of_mem (q : queueMap) (k : serviceKey) (e : queueEntry)
    (hnd : keysNodup q) (h : (k, e) ∈ q) : qlookup q k = some e := by
  induction q with
  | nil => simp at h
  | cons p rest ih =>
      obtain ⟨k', e'⟩ := p
      have hnd' : k' ∉ rest.map Prod.fst ∧ (rest.map Prod.fst).Nodup := by
        rw [← List.nodup_cons]
        simpa [keysNodup] using hnd
      rw [List.mem_cons] at h
      rcases h with h | h
      · have hk : k' = k := (congrArg Prod.fst h).symm
        have he : e' = e := (congrArg Prod.snd h).symm
        simp [qlookup, hk, he]
      · have hk : k ∈ rest.map Prod.fst := List.mem_map.mpr ⟨(k, e), h, rfl⟩
        have hp : k' ≠ k := by
          intro heq
          exact hnd'.1 (heq ▸ hk)
        simp only [qlookup, if_neg hp]
        exact ih hnd'.2 h

theorem qlookup_append_right (q : queueMap) (k : serviceKey) (e : queueEntry)
    (h : qlookup q k = none) : qlookup (q ++ [(k, e)]) k = some e := by
  induction q with
  | nil => simp [qlookup]
  | cons p rest ih =>
      by_cases hp : p.1 = k
      · simp [qlookup, hp] at h
      · simp [qlookup, hp] at h ⊢
        exact ih h

theorem entryLess_irrefl (now : Int) (a : queueEntryWithNodeRecent) :
    entryLess now a a = false := by
  unfold entryLess
  split_ifs <;> simp

theorem entryLess_trans (now : Int) (a b c : queueEntryWithNodeRecent)
    (hab : entryLess now a b = true) (hbc : entryLess now b c = true) :
    entryLess now a c = true := by
  unfold entryLess at *
  split_ifs at * <;> simp_all <;> omega

theorem entryLess_negtrans (now : Int) (a b c : queueEntryWithNodeRecent)
    (hab : entryLess now a b = false) (hbc : entryLess now b c = false) :
    entryLess now a c = false := by
  unfold entryLess at *
  split_ifs at * <;> simp_all <;> omega

theorem selectBest_mem (now : Int) (b : queueEntryWithNodeRecent)
    (l : List queueEntryWithNodeRecent) :
    selectBest now b l = b ∨ selectBest now b l ∈ l := by
  induction l generalizing b with
  | nil => left; rfl
  | cons e l' ih =>
      unfold selectBest at *
      simp only [List.foldl_cons]
      by_cases he : entryLess now e b = true
      · rw [if_pos he]
        rcases ih e with h | h
        · right
          rw [h]
          exact List.mem_cons_self e l'
        · right; exact List.mem_cons_of_mem _ h
      · rw [if_neg he]
        rcases ih b with h | h
        · left; exact h
        · right; exact List.mem_cons_of_mem _ h

theorem selectBest_min (now : Int) :
    ∀ (l : List queueEntryWithNodeRecent) (b x : queueEntryWithNodeRecent),
      (x = b ∨ x ∈ l) → entryLess now x (selectBest now b l) = false := by
  intro l
  induction l with
  | nil =>
      intro b x hx
      rcases hx with h | h
      · rw [h]
        exact entryLess_irrefl now b
      · simp at h
  | cons e l' ih =>
      intro b x hx
      unfold selectBest at *
      simp only [List.foldl_cons]
      by_cases he : entryLess now e b = true
      · rw [if_pos he]
        rcases hx with h | h
        · have hne : entryLess now e (List.foldl (fun best f => if entryLess now f best then f else best) e l') = false :=
            ih e e (Or.inl rfl)
          by_contra hc
          rw [Bool.not_eq_false] at hc
          have heb : entryLess now e x = true := by
            rw [h]
            exact he
          have := entryLess_trans now e x _ heb hc
          rw [this] at hne
          exact Bool.noConfusion hne
        · rw [List.mem_cons] at h
          rcases h with h | h
          · rw [h]
            exact ih e e (Or.inl rfl)
          · exact ih e x (Or.inr h)
      · rw [if_neg he]
        rcases hx with h | h
        · rw [h]
          exact ih b b (Or.inl rfl)
        · rw [List.mem_cons] at h
          rcases h with h | h
          · have hb : entryLess now b (List.foldl (fun best f => if entryLess now f best then f else best) b l') = false :=
              ih b b (Or.inl rfl)
            rw [h]
            exact entryLess_negtrans now e b _ (Bool.eq_false_iff.mpr he) hb
          · exact ih b x (Or.inr h)

theorem selectBest_ready (now : Int) (b x : queueEntryWithNodeRecent)
    (l : List queueEntryWithNodeRecent) (hx : x = b ∨ x ∈ l)
    (hready : ¬ now < x.entry.backoffUntil) :
    ¬ now < (selectBest now b l).entry.backoffUntil := by
  intro hc
  have hmin := selectBest_min now l b x hx
  unfold entryLess at hmin
  rw [if_neg hready, if_pos hc] at hmin
  exact Bool.noConfusion hmin

theorem pop_spec (reg : nodeRegistry) (now : Int) (q : queueMap)
    (r : queueEntry) (q2 : queueMap) (h : pop reg now q = some (r, q2)) :
    ∃ p0 ∈ q, r = p0.2 ∧ r.backoffUntil ≤ now ∧
      q2 = qdelete q (serviceKeyOf r.service) ∧
      ∀ x ∈ q, entryLess now (extendOne reg x) (extendOne reg p0) = false := by
  match q with
  | [] => simp [pop] at h
  | p :: ps =>
      simp only [pop] at h
      split at h
      · exact Option.noConfusion h
      · next hc =>
          have hpair := Option.some.inj h
          have hr : (selectBest now (extendOne reg p) (ps.map (extendOne reg))).entry = r :=
            congrArg Prod.fst hpair
          have hq2 : qdelete (p :: ps)
              (serviceKeyOf (selectBest now (extendOne reg p) (ps.map (extendOne reg))).entry.service) = q2 :=
            congrArg Prod.snd hpair
          rcases selectBest_mem now (extendOne reg p) (ps.map (extendOne reg)) with hm | hm
          · refine ⟨p, List.mem_cons_self p ps, ?_, ?_, ?_, ?_⟩
            · rw [← hr, hm]
              rfl
            · rw [← hr]
              exact Int.not_lt.mp hc
            · rw [← hq2, hr]
            · intro x hx
              have := selectBest_min now (ps.map (extendOne reg)) (extendOne reg p) (extendOne reg x) ?_
              · rw [hm] at this
                exact this
              · rw [List.mem_cons] at hx
                rcases hx with hx | hx
                · left
                  rw [hx]
                · right
                  exact List.mem_map.mpr ⟨x, hx, rfl⟩
          · obtain ⟨p0, hp0, hext⟩ := List.mem_map.mp hm
            refine ⟨p0, List.mem_cons_of_mem p hp0, ?_, ?_, ?_, ?_⟩
            · rw [← hr, ← hext]
              rfl
            · rw [← hr]
              exact Int.not_lt.mp hc
            · rw [← hq2, hr]
            · intro x hx
              have := selectBest_min now (ps.map (extendOne reg)) (extendOne reg p) (extendOne reg x) ?_
              · rw [hext]
                exact this
              · rw [List.mem_cons] at hx
                rcases hx with hx | hx
                · left
                  rw [hx]
                · right
                  exact List.mem_map.mpr ⟨x, hx, rfl⟩

theorem pop_isSome_of_ready (reg : nodeRegistry) (now : Int)
    (q : queueMap) (x : serviceKey × queueEntry) (hx : x ∈ q)
    (hready : x.2.backoffUntil ≤ now) :
    ∃ r q2, pop reg now q = some (r, q2) := by
  match q with
  | [] => simp at hx
  | p :: ps =>
      have hxe : extendOne reg x = extendOne reg p ∨
          extendOne reg x ∈ ps.map (extendOne reg) := by
        rw [List.mem_cons] at hx
        rcases hx with hx | hx
        · left
          rw [hx]
        · right
          exact List.mem_map.mpr ⟨x, hx, rfl⟩
      have hbest := selectBest_ready now (extendOne reg p) (extendOne reg x)
        (ps.map (extendOne reg)) hxe (Int.not_lt.mpr hready)
      refine ⟨(selectBest now (extendOne reg p) (ps.map (extendOne reg))).entry,
        qdelete (p :: ps)
          (serviceKeyOf (selectBest now (extendOne reg p) (ps.map (extendOne reg))).entry.service), ?_⟩
      simp only [pop]
      rw [if_neg hbest]


/-- After appending a binding keyed by its own service the map stays
well formed. -/
theorem wfQueue_append (q : queueMap) (k : serviceKey) (e : queueEntry)
    (hwf : wfQueue q) (hk : k = serviceKeyOf e.service) :
    wfQueue (q ++ [(k, e)]) := by
  intro p hp
  rw [List.mem_append] at hp
  rcases hp with hp | hp
  · exact hwf p hp
  · rw [List.mem_singleton] at hp
    subst hp
    exact hk

/-- Appending a binding for an absent key keeps the keys distinct. -/
theorem keysNodup_append (q : queueMap) (k : serviceKey) (e : queueEntry)
    (hnd : keysNodup q) (habs : qlookup q k = none) :
    keysNodup (q ++ [(k, e)]) := by
  unfold keysNodup at *
  rw [List.map_append]
  simp only [List.map_cons, List.map_nil]
  rw [List.nodup_append]
  refine ⟨hnd, List.nodup_singleton k, ?_⟩
  intro a ha hb
  simp at hb
  rw [hb] at ha
  exact (qlookup_eq_none_iff q k).mp habs ha

/-- Computation rule of push on an occupied key (the coalesce branch,
lines 94-99). -/
theorem push_coalesce (reg : nodeRegistry) (q : queueMap) (entry existing : queueEntry)
    (hex : qlookup q (serviceKeyOf entry.service) = some existing) :
    push reg q entry =
      (qinsert q (serviceKeyOf entry.service)
        { existing with service := entry.service.deepCopy, lb := none }, none) := by
  unfold push
  rw [hex]

/-- Computation rule of push on a fresh key when the registry
validates the service (lines 101-115). -/
theorem push_fresh (reg : nodeRegistry) (q : queueMap) (entry : queueEntry)
    (ns : List nodeInfo)
    (habs : qlookup q (serviceKeyOf entry.service) = none)
    (hreg : reg.nodesForService entry.service = .ok ns) :
    push reg q entry =
      (q ++ [(serviceKeyOf entry.service, { entry with service := entry.service.deepCopy })],
        none) := by
  unfold push
  rw [habs, hreg, qinsert_of_lookup_none q _ _ habs]

/-- Computation rule of push on a fresh key when the registry refuses
the service (lines 103-106): the error is returned and the queue is
untouched. -/
theorem push_fresh_err (reg : nodeRegistry) (q : queueMap) (entry : queueEntry)
    (e : String)
    (habs : qlookup q (serviceKeyOf entry.service) = none)
    (hreg : reg.nodesForService entry.service = .error e) :
    push reg q entry = (q, some e) := by
  unfold push
  rw [habs, hreg]

/-- C6: a queue entry is popped only once now has reached its
backoffUntil (a strictly future backoffUntil blocks the pop, an equal
one counts as ready), and an entry re-enqueued through pushWithBackoff
with delay d onto a queue that no longer holds its key is not returned
by any pop strictly before d has elapsed. -/
theorem pop_respects_backoff (reg : nodeRegistry) :
    (∀ (now : Int) (q : queueMap) (r : queueEntry) (q2 : queueMap),
      pop reg now q = some (r, q2) → r.backoffUntil ≤ now) ∧
    (∀ (now0 d : Int) (entry : queueEntry) (q q2 : queueMap),
      keysNodup q → wfQueue q →
      qlookup q (serviceKeyOf entry.service) = none →
      pushWithBackoff reg now0 q entry d = (q2, none) →
      ∀ now : Int, now < now0 + d →
        ∀ (r : queueEntry) (q3 : queueMap), pop reg now q2 = some (r, q3) →
          serviceKeyOf r.service ≠ serviceKeyOf entry.service) := by
  constructor
  · intro now q r q2 h
    obtain ⟨p0, _, _, hready, _, _⟩ := pop_spec reg now q r q2 h
    exact hready
  · intro now0 d entry q q2 hnd hwf habs hpush now hnow r q3 hpop hkey
    have hpush2 : push reg q
        { entry with backoffUntil := now0 + d, start := now0, lb := none } = (q2, none) :=
      hpush
    rcases hreg : reg.nodesForService entry.service with e | ns
    · rw [push_fresh_err reg q
          { entry with backoffUntil := now0 + d, start := now0, lb := none }
          e (by exact habs) (by exact hreg)] at hpush2
      exact Option.noConfusion (congrArg Prod.snd hpush2)
    · rw [push_fresh reg q
          { entry with backoffUntil := now0 + d, start := now0, lb := none }
          ns (by exact habs) (by exact hreg)] at hpush2
      have hq2 : q2 = q ++ [(serviceKeyOf entry.service,
          { entry with
              service := entry.service.deepCopy
              lb := none
              start := now0
              backoffUntil := now0 + d })] :=
        (congrArg Prod.fst hpush2).symm
      have hnd2 : keysNodup q2 := by
        rw [hq2]
        exact keysNodup_append q _ _ hnd habs
      have hwf2 : wfQueue q2 := by
        rw [hq2]
        exact wfQueue_append q _ _ hwf rfl
      obtain ⟨p0, hp0, hr, hready, _, _⟩ := pop_spec reg now q2 r q3 hpop
      have hp0key : p0.1 = serviceKeyOf entry.service := by
        rw [hwf2 p0 hp0, ← hr, hkey]
      have hlook : qlookup q2 (serviceKeyOf entry.service) =
          some { entry with
                   service := entry.service.deepCopy
                   lb := none
                   start := now0
                   backoffUntil := now0 + d } := by
        rw [hq2]
        exact qlookup_append_right q _ _ habs
      have hp0val := qlookup_of_mem q2 p0.1 p0.2 hnd2 (by
        cases p0
        exact hp0)
      rw [hp0key, hlook] at hp0val
      have hrv : r.backoffUntil = now0 + d := by
        rw [hr, ← Option.some.inj hp0val]
      omega

/-- C5: whenever some entry is ready, pop succeeds and the popped entry
maximises the pair (topRevision, earlier start) over all ready entries:
every ready entry has a strictly smaller topRevision than the popped
one, or an equal topRevision and a start no earlier.  topRevision is
recomputed from the registry at pop time. -/
theorem pop_priority_by_revision (reg : nodeRegistry) (now : Int) (q : queueMap)
    (hwf : wfQueue q) (p1 : serviceKey × queueEntry) (hp1 : p1 ∈ q)
    (hready1 : p1.2.backoffUntil ≤ now) :
    ∃ (r : queueEntry) (q2 : queueMap), pop reg now q = some (r, q2) ∧
      (∃ p0 ∈ q, p0.2 = r) ∧ r.backoffUntil ≤ now ∧
      ∀ p ∈ q, p.2.backoffUntil ≤ now →
        topRevisionFor reg p.1 < topRevisionFor reg (serviceKeyOf r.service) ∨
        (topRevisionFor reg p.1 = topRevisionFor reg (serviceKeyOf r.service) ∧
          r.start ≤ p.2.start) := by
  obtain ⟨r, q2, hpop⟩ := pop_isSome_of_ready reg now q p1 hp1 hready1
  obtain ⟨p0, hp0, hr, hready, hq2, hmin⟩ := pop_spec reg now q r q2 hpop
  refine ⟨r, q2, hpop, ⟨p0, hp0, hr.symm⟩, hready, ?_⟩
  intro p hp hpready
  have hp0ready : p0.2.backoffUntil ≤ now := hr ▸ hready
  have hkey : serviceKeyOf r.service = p0.1 := by
    rw [hr]
    exact (hwf p0 hp0).symm
  rw [hkey]
  have hless := hmin p hp
  have h1 : ¬ now < p.2.backoffUntil := Int.not_lt.mpr hpready
  have h2 : ¬ now < p0.2.backoffUntil := Int.not_lt.mpr hp0ready
  simp only [extendOne, entryLess] at hless
  rw [if_neg h1, if_neg h2] at hless
  by_cases h3 : topRevisionFor reg p.1 = topRevisionFor reg p0.1
  · rw [if_pos h3] at hless
    right
    refine ⟨h3, ?_⟩
    rw [hr]
    exact Int.not_lt.mp (of_decide_eq_false hless)
  · rw [if_neg h3] at hless
    left
    have hle := Nat.not_lt.mp (of_decide_eq_false hless)
    omega

/-- C1 amended: a push onto an occupied key keeps exactly one entry for
that key, replaces its service with a (deep copy of the) incoming
service and clears its lb, while updatePool, start and backoffUntil all
stay those of the existing entry; in particular the incoming updatePool
is discarded rather than OR-combined.  The key set of the queue is
unchanged. -/
theorem push_coalesce_fields (reg : nodeRegistry) (q : queueMap)
    (entry existing : queueEntry) (hnd : keysNodup q)
    (hex : qlookup q (serviceKeyOf entry.service) = some existing) :
    (push reg q entry).2 = none ∧
    qlookup (push reg q entry).1 (serviceKeyOf entry.service) =
      some { existing with service := entry.service.deepCopy, lb := none } ∧
    ((push reg q entry).1.map Prod.fst).count (serviceKeyOf entry.service) = 1 ∧
    (push reg q entry).1.map Prod.fst = q.map Prod.fst := by
  rw [push_coalesce reg q entry existing hex]
  have hkeys : (qinsert q (serviceKeyOf entry.service)
      { existing with service := entry.service.deepCopy, lb := none }).map Prod.fst =
      q.map Prod.fst :=
    keys_qinsert_present q _ _ existing hex
  refine ⟨rfl, qlookup_qinsert_self q _ _, ?_, hkeys⟩
  rw [hkeys]
  exact List.count_eq_one_of_mem hnd (qlookup_mem_keys q _ existing hex)

/-- C3 amended: while an entry sits alone in the queue with a strictly
future backoffUntil, a fresh push for the same key coalesces without
touching backoffUntil, so the next pop still returns nothing before the
backoff expires, and first returns the (coalesced) entry at the instant
backoffUntil itself. -/
theorem coalesce_preserves_backoff (reg : nodeRegistry) (now : Int)
    (k : serviceKey) (existing fresh : queueEntry)
    (hk : k = serviceKeyOf existing.service)
    (hsame : serviceKeyOf fresh.service = serviceKeyOf existing.service)
    (hfut : now < existing.backoffUntil) :
    (push reg [(k, existing)] fresh).1 =
      [(k, { existing with service := fresh.service.deepCopy, lb := none })] ∧
    pop reg now (push reg [(k, existing)] fresh).1 = none ∧
    pop reg existing.backoffUntil (push reg [(k, existing)] fresh).1 =
      some ({ existing with service := fresh.service.deepCopy, lb := none }, []) := by
  have hex : qlookup [(k, existing)] (serviceKeyOf fresh.service) = some existing := by
    rw [hsame, hk]
    simp [qlookup]
  rw [push_coalesce reg [(k, existing)] fresh existing hex]
  have hq : qinsert [(k, existing)] (serviceKeyOf fresh.service)
      { existing with service := fresh.service.deepCopy, lb := none } =
      [(serviceKeyOf fresh.service,
        { existing with service := fresh.service.deepCopy, lb := none })] := by
    rw [hsame, hk]
    simp [qinsert]
  rw [hq]
  have hkk : serviceKeyOf fresh.service = k := by
    rw [hsame, hk]
  rw [hkk]
  refine ⟨rfl, ?_, ?_⟩
  · simp only [pop, List.map_nil, selectBest, List.foldl_nil, extendOne]
    rw [if_pos hfut]
  · have hmk : serviceKeyOf
        ({ existing with service := fresh.service.deepCopy, lb := none } : queueEntry).service = k := by
      show serviceKeyOf fresh.service.deepCopy = k
      exact hkk
    have hdel : qdelete
        [(k, { existing with service := fresh.service.deepCopy, lb := none })]
        (serviceKeyOf
          ({ existing with service := fresh.service.deepCopy, lb := none } : queueEntry).service) = [] := by
      simp [qdelete, hmk]
    simp only [pop, List.map_nil, selectBest, List.foldl_nil, extendOne]
    rw [if_neg (by
      show ¬ existing.backoffUntil <
        ({ existing with service := fresh.service.deepCopy, lb := none } : queueEntry).backoffUntil
      exact Int.lt_irrefl _)]
    rw [hdel]

/-- C7: a push whose key is absent asks the registry first; an error is
returned verbatim with the queue untouched, while success appends a
deep copy of the entry under the derived key and returns ok. -/
theorem push_fresh_key_validates (reg : nodeRegistry) (q : queueMap)
    (entry : queueEntry)
    (habs : qlookup q (serviceKeyOf entry.service) = none) :
    (∀ e, reg.nodesForService entry.service = .error e →
      push reg q entry = (q, some e)) ∧
    (∀ ns, reg.nodesForService entry.service = .ok ns →
      push reg q entry =
        (q ++ [(serviceKeyOf entry.service,
          { entry with service := entry.service.deepCopy })], none) ∧
      qlookup (push reg q entry).1 (serviceKeyOf entry.service) =
        some { entry with service := entry.service.deepCopy }) := by
  constructor
  · intro e hreg
    exact push_fresh_err reg q entry e habs hreg
  · intro ns hreg
    have h := push_fresh reg q entry ns habs hreg
    refine ⟨h, ?_⟩
    rw [h]
    exact qlookup_append_right q _ _ habs

/-- The adapter operations processQueueEntry can invoke, recorded as
trace events. -/
inductive adapterEv where
  | nodesForServiceEv
  | getLoadBalancerEv
  | shouldManageEv
  | syncNodesEv
  | updatePoolEv
deriving DecidableEq

/-- Interface of the LB adapter consumed by processQueueEntry
(getLoadBalancer, shouldManageLB, syncNodes, updateLoadBalancerPool).
shouldManageLB and the two mutators return some error on failure or
skip, none on ok, as their Go counterparts return error values. -/
structure lbAdapter where
  getLoadBalancer : Service → String → List String → Except String loadBalancer
  shouldManageLB : loadBalancer → Option String
  syncNodes : loadBalancer → List String → List String → Option String
  updateLoadBalancerPool : loadBalancer → Option String

/-- Modelled from the spec: idsForNodes, which is called by
processQueueEntry but whose body is not among the analysed sources,
derives (hostIDs, networkIDs, projectID) from the registry nodes.  The
claims under verification never inspect these values. -/
def idsForNodes (nodes : List nodeInfo) : List String × List String × String :=
  (nodes.map nodeInfo.hostID, nodes.map nodeInfo.networkID,
    ((nodes.head?).map nodeInfo.projectID).getD "")

/-- The tail of processQueueEntry from the syncNodes call on (lines
258-270): syncNodes, then updateLoadBalancerPool when the entry asks
for it, with the first error aborting. -/
def syncPhase (ad : lbAdapter) (updatePool : Bool) (lb : loadBalancer)
    (hostIDs networkIDs : List String) : Option String × List adapterEv :=
  match ad.syncNodes lb hostIDs networkIDs with
  | some e => (some e, [adapterEv.syncNodesEv])
  | none =>
      if updatePool then
        match ad.updateLoadBalancerPool lb with
        | some e => (some e, [adapterEv.syncNodesEv, adapterEv.updatePoolEv])
        | none => (none, [adapterEv.syncNodesEv, adapterEv.updatePoolEv])
      else (none, [adapterEv.syncNodesEv])

/-- Models updateLBNodeQueue.processQueueEntry (service_queue.go lines
226-271), returning the error result together with the ordered list of
adapter calls performed.  The lock and deferred unlock surrounding the
body are added by progOf below.  When entry.lb is non-nil the whole
getLoadBalancer / rule check / shouldManageLB block (lines 240-256) is
skipped and syncNodes runs directly on the cached handle. -/
def processQueueEntry (reg : nodeRegistry) (ad : lbAdapter) (entry : queueEntry) :
    Option String × List adapterEv :=
  match reg.nodesForService entry.service with
  | .error e => (some e, [adapterEv.nodesForServiceEv])
  | .ok nodes =>
      let ids := idsForNodes nodes
      match entry.lb with
      | some lb =>
          let r := syncPhase ad entry.updatePool lb ids.1 ids.2.1
          (r.1, adapterEv.nodesForServiceEv :: r.2)
      | none =>
          match ad.getLoadBalancer entry.service ids.2.2 ids.2.1 with
          | .error e => (some e, [adapterEv.nodesForServiceEv, adapterEv.getLoadBalancerEv])
          | .ok lb =>
              match lb.rule with
              | none => (none, [adapterEv.nodesForServiceEv, adapterEv.getLoadBalancerEv])
              | some _ =>
                  match ad.shouldManageLB lb with
                  | some _ =>
                      (none, [adapterEv.nodesForServiceEv, adapterEv.getLoadBalancerEv,
                        adapterEv.shouldManageEv])
                  | none =>
                      let r := syncPhase ad entry.updatePool lb ids.1 ids.2.1
                      (r.1, adapterEv.nodesForServiceEv :: adapterEv.getLoadBalancerEv ::
                        adapterEv.shouldManageEv :: r.2)

theorem syncPhase_calls (ad : lbAdapter) (u : Bool) (lb : loadBalancer)
    (h n : List String) :
    (syncPhase ad u lb h n).2 = [adapterEv.syncNodesEv] ∨
    (syncPhase ad u lb h n).2 = [adapterEv.syncNodesEv, adapterEv.updatePoolEv] := by
  unfold syncPhase
  rcases ad.syncNodes lb h n with _ | e
  · by_cases hu : u
    · rw [if_pos hu]
      rcases ad.updateLoadBalancerPool lb with _ | e
      · right
        rfl
      · right
        rfl
    · rw [if_neg hu]
      left
      rfl
  · left
    rfl

/-- C2 amended: when the popped entry carries no cached lb, the adapter
operations of processQueueEntry happen in the order nodesForService,
getLoadBalancer, shouldManageLB, syncNodes, updateLoadBalancerPool (the
trace is a sublist of that sequence) and syncNodes is reached only
after shouldManageLB was consulted; when the entry carries a cached lb,
getLoadBalancer and shouldManageLB are skipped entirely and syncNodes
runs directly. -/
theorem processQueueEntry_call_order (reg : nodeRegistry) (ad : lbAdapter)
    (entry : queueEntry) :
    (entry.lb = none →
      List.Sublist (processQueueEntry reg ad entry).2
        [adapterEv.nodesForServiceEv, adapterEv.getLoadBalancerEv,
         adapterEv.shouldManageEv, adapterEv.syncNodesEv, adapterEv.updatePoolEv] ∧
      (adapterEv.syncNodesEv ∈ (processQueueEntry reg ad entry).2 →
        adapterEv.shouldManageEv ∈ (processQueueEntry reg ad entry).2)) ∧
    (∀ lb, entry.lb = some lb →
      List.Sublist (processQueueEntry reg ad entry).2
        [adapterEv.nodesForServiceEv, adapterEv.syncNodesEv, adapterEv.updatePoolEv] ∧
      adapterEv.shouldManageEv ∉ (processQueueEntry reg ad entry).2 ∧
      adapterEv.getLoadBalancerEv ∉ (processQueueEntry reg ad entry).2) := by
  constructor
  · intro hnil
    rcases hn : reg.nodesForService entry.service with e | nodes
    · simp only [processQueueEntry, hn]
      exact ⟨by decide, by decide⟩
    · rcases hg : ad.getLoadBalancer entry.service (idsForNodes nodes).2.2
          (idsForNodes nodes).2.1 with e | lb
      · simp only [processQueueEntry, hn, hnil, hg]
        exact ⟨by decide, by decide⟩
      · rcases hrule : lb.rule with _ | ru
        · simp only [processQueueEntry, hn, hnil, hg, hrule]
          exact ⟨by decide, by decide⟩
        · rcases hman : ad.shouldManageLB lb with _ | e
          · rcases syncPhase_calls ad entry.updatePool lb (idsForNodes nodes).1
                (idsForNodes nodes).2.1 with hs | hs
            · simp only [processQueueEntry, hn, hnil, hg, hrule, hman, hs]
              exact ⟨by decide, by decide⟩
            · simp only [processQueueEntry, hn, hnil, hg, hrule, hman, hs]
              exact ⟨by decide, by decide⟩
          · simp only [processQueueEntry, hn, hnil, hg, hrule, hman]
            exact ⟨by decide, by decide⟩
  · intro lb hlb
    rcases hn : reg.nodesForService entry.service with e | nodes
    · simp only [processQueueEntry, hn]
      exact ⟨by decide, by decide, by decide⟩
    · rcases syncPhase_calls ad entry.updatePool lb (idsForNodes nodes).1
          (idsForNodes nodes).2.1 with hs | hs
      · simp only [processQueueEntry, hn, hlb, hs]
        exact ⟨by decide, by decide, by decide⟩
      · simp only [processQueueEntry, hn, hlb, hs]
        exact ⟨by decide, by decide, by decide⟩

/-- Models defaultFailureBackoff = 15 * time.Second (line 26), in
seconds on the Int time line. -/
def defaultFailureBackoff : Int := 15

/-- Models corev1.EventTypeWarning. -/
def eventTypeWarning : String := "Warning"

/-- Models the constant eventReasonUpdateFailed (line 22). -/
def eventReasonUpdateFailed : String := "UpdateLoadBalancerFailed"

/-- A Kubernetes event as emitted through cs.recorder.Event. -/
structure kubeEvent where
  etype : String
  reason : String
  message : String
deriving DecidableEq

/-- The two per-service counters processed_total and failures_total for
one (namespace, service) label pair. -/
structure metricsState where
  processed : Nat
  failures : Nat
deriving DecidableEq

/-- Outcome of one worker iteration on a popped item: the queue after
any re-push, the counters, the recorder events emitted, and the number
of syncNodes calls the processing performed. -/
structure handleResult where
  queue : queueMap
  metrics : metricsState
  events : List kubeEvent
  syncAttempts : Nat
deriving DecidableEq

/-- Models the body of the worker loop once pop returned an item
(service_queue.go lines 211-220): processQueueEntry runs, then
processed_total is incremented unconditionally; on error failures_total
is incremented, one Warning event with reason UpdateLoadBalancerFailed
quoting the error is emitted on the service, and the item is re-pushed
through pushWithBackoff with the default backoff, the error of that
push being discarded (line 219), so on a failed re-push the queue stays
as it was. -/
def handleItem (reg : nodeRegistry) (ad : lbAdapter) (now : Int)
    (q : queueMap) (item : queueEntry) (m : metricsState) : handleResult :=
  match processQueueEntry reg ad item with
  | (some e, calls) =>
      { queue := (pushWithBackoff reg now q item defaultFailureBackoff).1
        metrics := { processed := m.processed + 1, failures := m.failures + 1 }
        events := [{ etype := eventTypeWarning
                     reason := eventReasonUpdateFailed
                     message := "Error updating load balancer with new hosts: " ++ e }]
        syncAttempts := calls.count adapterEv.syncNodesEv }
  | (none, calls) =>
      { queue := q
        metrics := { processed := m.processed + 1, failures := m.failures }
        events := []
        syncAttempts := calls.count adapterEv.syncNodesEv }

/-- C4 amended: every handled item increments processed_total by
exactly one whether or not syncNodes was ever attempted, and
failures_total advances by exactly the number of Warning events
emitted, which is one on a failed reconciliation and zero on a
successful one.  processed_total therefore counts reconciliations, not
syncNodes attempts. -/
theorem handleItem_metrics (reg : nodeRegistry) (ad : lbAdapter) (now : Int)
    (q : queueMap) (item : queueEntry) (m : metricsState) :
    (handleItem reg ad now q item m).metrics.processed = m.processed + 1 ∧
    (handleItem reg ad now q item m).metrics.failures =
      m.failures + (handleItem reg ad now q item m).events.length ∧
    ((handleItem reg ad now q item m).events.length = 1 ↔
      (processQueueEntry reg ad item).1 ≠ none) ∧
    (handleItem reg ad now q item m).events.length ≤ 1 := by
  rcases h : processQueueEntry reg ad item with ⟨res, calls⟩
  rcases res with _ | e
  · simp [handleItem, h]
  · simp [handleItem, h]

/-- C8: when processQueueEntry fails, the worker iteration increments
failures_total, emits exactly one Warning event with reason
UpdateLoadBalancerFailed whose message quotes the error, and re-pushes
the item with the 15 second default backoff, so that (when no fresher
push coalesced meanwhile and the registry validates the service) the
queue afterwards holds the item with backoffUntil = now + 15 and a
cleared lb; when processing succeeds, none of this happens and the
queue is untouched. -/
theorem handleItem_failure_path (reg : nodeRegistry) (ad : lbAdapter) (now : Int)
    (q : queueMap) (item : queueEntry) (m : metricsState) :
    (∀ e, (processQueueEntry reg ad item).1 = some e →
      (handleItem reg ad now q item m).metrics.failures = m.failures + 1 ∧
      (handleItem reg ad now q item m).events =
        [{ etype := eventTypeWarning
           reason := eventReasonUpdateFailed
           message := "Error updating load balancer with new hosts: " ++ e }] ∧
      (handleItem reg ad now q item m).queue =
        (pushWithBackoff reg now q item defaultFailureBackoff).1 ∧
      (qlookup q (serviceKeyOf item.service) = none →
        ∀ ns, reg.nodesForService item.service = .ok ns →
          qlookup (handleItem reg ad now q item m).queue (serviceKeyOf item.service) =
            some { item with
                     service := item.service.deepCopy
                     lb := none
                     start := now
                     backoffUntil := now + defaultFailureBackoff })) ∧
    ((processQueueEntry reg ad item).1 = none →
      (handleItem reg ad now q item m).metrics.failures = m.failures ∧
      (handleItem reg ad now q item m).events = [] ∧
      (handleItem reg ad now q item m).queue = q) := by
  rcases h : processQueueEntry reg ad item with ⟨res, calls⟩
  constructor
  · intro e hres
    simp only at hres
    subst hres
    refine ⟨by simp [handleItem, h], by simp [handleItem, h], by simp [handleItem, h], ?_⟩
    intro habs ns hreg
    have hq : (handleItem reg ad now q item m).queue =
        (pushWithBackoff reg now q item defaultFailureBackoff).1 := by
      simp [handleItem, h]
    rw [hq]
    unfold pushWithBackoff
    rw [push_fresh reg q
        { item with backoffUntil := now + defaultFailureBackoff, start := now, lb := none }
        ns (by exact habs) (by exact hreg)]
    exact qlookup_append_right q _ _ habs
  · intro hres
    simp only at hres
    subst hres
    simp [handleItem, h]

/-- One atomic action of a worker: taking or releasing the per-service
lock, or one adapter call. -/
inductive procEv where
  | lockEv (k : serviceKey)
  | unlockEv (k : serviceKey)
  | callEv (a : adapterEv)
deriving DecidableEq

/-- The adapter-call body of one reconciliation. -/
def bodyOf (reg : nodeRegistry) (ad : lbAdapter) (e : queueEntry) : List adapterEv :=
  (processQueueEntry reg ad e).2

/-- The full action sequence of processQueueEntry for one entry:
svcLock.Lock on the service (line 227), the adapter calls, and the
deferred svcLock.Unlock (line 228), which runs on every exit path. -/
def progOf (reg : nodeRegistry) (ad : lbAdapter) (e : queueEntry) : List procEv :=
  procEv.lockEv (serviceKeyOf e.service) ::
    ((bodyOf reg ad e).map procEv.callEv ++ [procEv.unlockEv (serviceKeyOf e.service)])

/-- State of n workers each reconciling one popped entry: the owner of
each per-service lock and the remaining program of each worker. -/
structure sysState (n : Nat) where
  owner : serviceKey → Option (Fin n)
  progs : Fin n → List procEv

/-- Interleaving semantics: a worker executes the head action of its
remaining program; taking a lock requires the key to be unowned
(svcLock.Lock blocks), releasing clears the owner, adapter calls leave
the lock table alone. -/
inductive sysStep {n : Nat} : sysState n → sysState n → Prop
  | lockStep (s : sysState n) (w : Fin n) (k : serviceKey) (rest : List procEv)
      (hp : s.progs w = procEv.lockEv k :: rest) (ho : s.owner k = none) :
      sysStep s
        { owner := fun k2 => if k2 = k then some w else s.owner k2
          progs := fun w2 => if w2 = w then rest else s.progs w2 }
  | unlockStep (s : sysState n) (w : Fin n) (k : serviceKey) (rest : List procEv)
      (hp : s.progs w = procEv.unlockEv k :: rest) :
      sysStep s
        { owner := fun k2 => if k2 = k then none else s.owner k2
          progs := fun w2 => if w2 = w then rest else s.progs w2 }
  | callStep (s : sysState n) (w : Fin n) (a : adapterEv) (rest : List procEv)
      (hp : s.progs w = procEv.callEv a :: rest) :
      sysStep s
        { owner := s.owner
          progs := fun w2 => if w2 = w then rest else s.progs w2 }

/-- n workers each about to run processQueueEntry on a popped entry,
with no lock held yet. -/
def initState (reg : nodeRegistry) (ad : lbAdapter) {n : Nat}
    (entries : Fin n → queueEntry) : sysState n :=
  { owner := fun _ => none, progs := fun w => progOf reg ad (entries w) }

/-- The ServiceKey worker w reconciles. -/
def wkeyOf {n : Nat} (entries : Fin n → queueEntry) (w : Fin n) : serviceKey :=
  serviceKeyOf (entries w).service

/-- Worker w sits in its critical section: the unlock of its key is
still ahead of it while its lock action is already behind it. -/
def inside {n : Nat} (entries : Fin n → queueEntry) (s : sysState n) (w : Fin n) : Prop :=
  procEv.unlockEv (wkeyOf entries w) ∈ s.progs w ∧
  procEv.lockEv (wkeyOf entries w) ∉ s.progs w

/-- Control locations of one worker: not yet locked, inside the
critical section with a suffix u of the adapter calls still to run, or
finished. -/
def locOK (reg : nodeRegistry) (ad : lbAdapter) {n : Nat}
    (entries : Fin n → queueEntry) (s : sysState n) (w : Fin n) : Prop :=
  s.progs w = progOf reg ad (entries w) ∨
  (∃ u : List adapterEv, List.IsSuffix u (bodyOf reg ad (entries w)) ∧
    s.progs w = u.map procEv.callEv ++ [procEv.unlockEv (wkeyOf entries w)]) ∨
  s.progs w = []

/-- The system invariant: every worker is at a legal control location
and every worker inside its critical section owns the lock of its
key. -/
def sysInv (reg : nodeRegistry) (ad : lbAdapter) {n : Nat}
    (entries : Fin n → queueEntry) (s : sysState n) : Prop :=
  (∀ w, locOK reg ad entries s w) ∧
  (∀ w, inside entries s w → s.owner (wkeyOf entries w) = some w)

theorem unlockEv_mem_bracket (k : serviceKey) (u : List adapterEv) :
    procEv.unlockEv k ∈ u.map procEv.callEv ++ [procEv.unlockEv k] := by
  simp

theorem lockEv_not_mem_bracket (k k' : serviceKey) (u : List adapterEv) :
    procEv.lockEv k ∉ u.map procEv.callEv ++ [procEv.unlockEv k'] := by
  simp

theorem inside_of_bracket {n : Nat} (entries : Fin n → queueEntry)
    (s : sysState n) (w : Fin n) (u : List adapterEv)
    (h : s.progs w = u.map procEv.callEv ++ [procEv.unlockEv (wkeyOf entries w)]) :
    inside entries s w := by
  constructor
  · rw [h]
    exact unlockEv_mem_bracket _ u
  · rw [h]
    exact lockEv_not_mem_bracket _ _ u

theorem locOK_lock (reg : nodeRegistry) (ad : lbAdapter) {n : Nat}
    (entries : Fin n → queueEntry) (s : sysState n) (w : Fin n)
    (k : serviceKey) (rest : List procEv)
    (hloc : locOK reg ad entries s w) (hp : s.progs w = procEv.lockEv k :: rest) :
    k = wkeyOf entries w ∧
    rest = (bodyOf reg ad (entries w)).map procEv.callEv ++
      [procEv.unlockEv (wkeyOf entries w)] := by
  rcases hloc with hloc | ⟨u, hsuf, hloc⟩ | hloc
  · rw [hp] at hloc
    unfold progOf at hloc
    injection hloc with h1 h2
    injection h1 with hk
    exact ⟨hk, h2⟩
  · rw [hp] at hloc
    cases u with
    | nil => simp at hloc
    | cons a u' => simp at hloc
  · rw [hp] at hloc
    exact absurd hloc (List.cons_ne_nil _ _)

theorem locOK_unlock (reg : nodeRegistry) (ad : lbAdapter) {n : Nat}
    (entries : Fin n → queueEntry) (s : sysState n) (w : Fin n)
    (k : serviceKey) (rest : List procEv)
    (hloc : locOK reg ad entries s w) (hp : s.progs w = procEv.unlockEv k :: rest) :
    k = wkeyOf entries w ∧ rest = [] := by
  rcases hloc with hloc | ⟨u, hsuf, hloc⟩ | hloc
  · rw [hp] at hloc
    unfold progOf at hloc
    injection hloc with h1 h2
    exact absurd h1 (by simp)
  · rw [hp] at hloc
    cases u with
    | nil =>
        simp only [List.map_nil, List.nil_append] at hloc
        injection hloc with h1 h2
        injection h1 with hk
        exact ⟨hk, h2⟩
    | cons a u' => simp at hloc
  · rw [hp] at hloc
    exact absurd hloc (List.cons_ne_nil _ _)

theorem locOK_call (reg : nodeRegistry) (ad : lbAdapter) {n : Nat}
    (entries : Fin n → queueEntry) (s : sysState n) (w : Fin n)
    (a : adapterEv) (rest : List procEv)
    (hloc : locOK reg ad entries s w) (hp : s.progs w = procEv.callEv a :: rest) :
    ∃ u : List adapterEv, List.IsSuffix u (bodyOf reg ad (entries w)) ∧
      rest = u.map procEv.callEv ++ [procEv.unlockEv (wkeyOf entries w)] := by
  rcases hloc with hloc | ⟨u, hsuf, hloc⟩ | hloc
  · rw [hp] at hloc
    unfold progOf at hloc
    injection hloc with h1 h2
    exact absurd h1 (by simp)
  · rw [hp] at hloc
    cases u with
    | nil => simp at hloc
    | cons a' u' =>
        simp only [List.map_cons, List.cons_append] at hloc
        injection hloc with h1 h2
        refine ⟨u', ?_, h2⟩
        exact List.IsSuffix.trans (List.suffix_cons a' u') hsuf
  · rw [hp] at hloc
    exact absurd hloc (List.cons_ne_nil _ _)

theorem sysInv_init (reg : nodeRegistry) (ad : lbAdapter) {n : Nat}
    (entries : Fin n → queueEntry) :
    sysInv reg ad entries (initState reg ad entries) := by
  constructor
  · intro w
    left
    rfl
  · intro w hw
    exfalso
    apply hw.2
    show procEv.lockEv (wkeyOf entries w) ∈ progOf reg ad (entries w)
    unfold progOf
    exact List.mem_cons_self _ _

theorem locOK_congr (reg : nodeRegistry) (ad : lbAdapter) {n : Nat}
    (entries : Fin n → queueEntry) (s s2 : sysState n) (w : Fin n)
    (h : s2.progs w = s.progs w) (hl : locOK reg ad entries s w) :
    locOK reg ad entries s2 w := by
  unfold locOK at *
  rw [h]
  exact hl

theorem inside_congr {n : Nat} (entries : Fin n → queueEntry)
    (s s2 : sysState n) (w : Fin n) (h : s2.progs w = s.progs w)
    (hl : inside entries s2 w) : inside entries s w := by
  unfold inside at *
  rw [← h]
  exact hl

theorem sysInv_step (reg : nodeRegistry) (ad : lbAdapter) {n : Nat}
    (entries : Fin n → queueEntry) (s s2 : sysState n)
    (hinv : sysInv reg ad entries s) (hstep : sysStep s s2) :
    sysInv reg ad entries s2 := by
  cases hstep with
  | lockStep w k rest hp ho =>
      obtain ⟨hk, hrest⟩ := locOK_lock reg ad entries s w k rest (hinv.1 w) hp
      constructor
      · intro w2
        by_cases hw : w2 = w
        · subst hw
          unfold locOK
          simp only [if_pos rfl]
          right
          left
          exact ⟨bodyOf reg ad (entries w2), List.suffix_refl _, hrest⟩
        · exact locOK_congr reg ad entries s _ w2 (if_neg hw) (hinv.1 w2)
      · intro w2 hin
        by_cases hw : w2 = w
        · subst hw
          show (if wkeyOf entries w2 = k then some w2 else s.owner (wkeyOf entries w2)) = some w2
          rw [if_pos hk.symm]
        · have hin0 : inside entries s w2 := inside_congr entries s _ w2 (if_neg hw) hin
          have h2 := hinv.2 w2 hin0
          show (if wkeyOf entries w2 = k then some w else s.owner (wkeyOf entries w2)) = some w2
          have hkne : wkeyOf entries w2 ≠ k := by
            intro he
            rw [he] at h2
            rw [h2] at ho
            exact Option.noConfusion ho
          rw [if_neg hkne]
          exact h2
  | unlockStep w k rest hp =>
      obtain ⟨hk, hrest⟩ := locOK_unlock reg ad entries s w k rest (hinv.1 w) hp
      have hin_w : inside entries s w := by
        constructor
        · rw [hp, hk, hrest]
          exact List.mem_cons_self _ _
        · rw [hp, hk, hrest]
          intro hmem
          rcases List.mem_cons.mp hmem with hmem | hmem
          · exact procEv.noConfusion hmem
          · exact List.not_mem_nil _ hmem
      have hown := hinv.2 w hin_w
      constructor
      · intro w2
        by_cases hw : w2 = w
        · subst hw
          unfold locOK
          simp only [if_pos rfl]
          right
          right
          exact hrest
        · exact locOK_congr reg ad entries s _ w2 (if_neg hw) (hinv.1 w2)
      · intro w2 hin
        by_cases hw : w2 = w
        · subst hw
          exfalso
          rcases hin with ⟨h1, _⟩
          simp only [if_pos rfl] at h1
          rw [hrest] at h1
          exact List.not_mem_nil _ h1
        · have hin0 : inside entries s w2 := inside_congr entries s _ w2 (if_neg hw) hin
          have h2 := hinv.2 w2 hin0
          show (if wkeyOf entries w2 = k then none else s.owner (wkeyOf entries w2)) = some w2
          have hkne : wkeyOf entries w2 ≠ k := by
            intro he
            rw [← hk] at hown
            rw [he] at h2
            rw [h2] at hown
            exact hw (Option.some.inj hown)
          rw [if_neg hkne]
          exact h2
  | callStep w a rest hp =>
      obtain ⟨u, hsuf, hrest⟩ := locOK_call reg ad entries s w a rest (hinv.1 w) hp
      have hin_w : inside entries s w := by
        constructor
        · rw [hp, hrest]
          exact List.mem_cons_of_mem _ (unlockEv_mem_bracket _ u)
        · rw [hp, hrest]
          intro hmem
          rcases List.mem_cons.mp hmem with hmem | hmem
          · exact procEv.noConfusion hmem
          · exact lockEv_not_mem_bracket _ _ u hmem
      constructor
      · intro w2
        by_cases hw : w2 = w
        · subst hw
          unfold locOK
          simp only [if_pos rfl]
          right
          left
          exact ⟨u, hsuf, hrest⟩
        · exact locOK_congr reg ad entries s _ w2 (if_neg hw) (hinv.1 w2)
      · intro w2 hin
        by_cases hw : w2 = w
        · subst hw
          exact hinv.2 w2 hin_w
        · have hin0 : inside entries s w2 := inside_congr entries s _ w2 (if_neg hw) hin
          exact hinv.2 w2 hin0

/-- C9: in every state reachable by interleaving n workers that each
run processQueueEntry on a popped entry, at most one worker per
ServiceKey sits between its svcLock.Lock and svcLock.Unlock, and every
worker whose next action is an adapter call (syncNodes in particular)
is inside that bracket; hence the adapter-call intervals of two workers
for one key never overlap. -/
theorem workers_mutual_exclusion (reg : nodeRegistry) (ad : lbAdapter) {n : Nat}
    (entries : Fin n → queueEntry) (s : sysState n)
    (hreach : Relation.ReflTransGen sysStep (initState reg ad entries) s) :
    (∀ w1 w2 : Fin n, inside entries s w1 → inside entries s w2 →
      wkeyOf entries w1 = wkeyOf entries w2 → w1 = w2) ∧
    (∀ (w : Fin n) (a : adapterEv) (rest : List procEv),
      s.progs w = procEv.callEv a :: rest → inside entries s w) := by
  have hinv : sysInv reg ad entries s := by
    induction hreach with
    | refl => exact sysInv_init reg ad entries
    | tail _ hstep ih => exact sysInv_step reg ad entries _ _ ih hstep
  constructor
  · intro w1 w2 h1 h2 hk
    have o1 := hinv.2 w1 h1
    have o2 := hinv.2 w2 h2
    rw [hk] at o1
    exact Option.some.inj (o1.symm.trans o2)
  · intro w a rest hp
    obtain ⟨u, _, hrest⟩ := locOK_call reg ad entries s w a rest (hinv.1 w) hp
    constructor
    · rw [hp, hrest]
      exact List.mem_cons_of_mem _ (unlockEv_mem_bracket _ u)
    · rw [hp, hrest]
      intro hmem
      rcases List.mem_cons.mp hmem with hmem | hmem
      · exact procEv.noConfusion hmem
      · exact lockEv_not_mem_bracket _ _ u hmem

/-- Models Go type node (instances.go lines 31-35). -/
structure csNode where
  projectID : String
  name : String
  environment : String
deriving DecidableEq

/-- The part of metav1.ObjectMeta the node helpers read: name, labels
and annotations, each label set as an association list. -/
structure objectMeta where
  name : String
  labels : List (String × String)
  annots : List (String × String)
deriving DecidableEq

/-- Go map indexing over an association list. -/
def alookup : List (String × String) → String → Option String
  | [], _ => none
  | (k, v) :: rest, key => if k = key then some v else alookup rest key

/-- Models getLabelOrAnnotation (instances.go lines 289-298), renamed
getLabelOrAnnot: empty label name finds nothing, labels take precedence
over annotations. -/
def getLabelOrAnnot (obj : objectMeta) (name : String) : Option String :=
  if name = "" then none
  else
    match alookup obj.labels name with
    | some v => some v
    | none => alookup obj.annots name

/-- The fields of CSCloud consumed by the node lookup helpers, the kube
client get and list calls kept abstract. -/
structure csCloud where
  nodeNameLabel : String
  environmentLabel : String
  projectIDLabel : String
  kubeGetNode : String → Except String objectMeta
  kubeListNodes : String → Except String (List objectMeta)

/-- Models CSCloud.newNode (instances.go lines 263-279). -/
def newNode (cs : csCloud) (kubeNode : objectMeta) : Except String csNode :=
  let name := match getLabelOrAnnot kubeNode cs.nodeNameLabel with
              | some n => n
              | none => kubeNode.name
  let environment := (getLabelOrAnnot kubeNode cs.environmentLabel).getD ""
  match getLabelOrAnnot kubeNode cs.projectIDLabel with
  | none => .error ("failed to retrive projectID from node \"" ++ name ++ "\"")
  | some projectID =>
      .ok { projectID := projectID, name := name, environment := environment }

/-- Models CSCloud.getNodeByName (instances.go lines 230-241). -/
def getNodeByName (cs : csCloud) (name : String) : Except String csNode :=
  match cs.kubeGetNode name with
  | .error e => .error e
  | .ok kubeNode => newNode cs kubeNode

/-- Models CSCloud.getNodeByProviderID (instances.go lines 243-261):
with a node-name label configured it lists nodes by the label selector
and then tests len > 0 before len == 0, so any non-empty result (a
single match included) produces the multiple-nodes error and an empty
result the no-node error; the final newNode call is unreachable.  Only
with no label configured does it fall back to getNodeByName. -/
def getNodeByProviderID (cs : csCloud) (id : String) : Except String csNode :=
  if cs.nodeNameLabel = "" then getNodeByName cs id
  else
    match cs.kubeListNodes (cs.nodeNameLabel ++ "=" ++ id) with
    | .error e => .error ("failed to list nodes: " ++ e)
    | .ok items =>
        if 0 < items.length then .error ("multiple nodes found for provider id " ++ id)
        else if items.length = 0 then .error ("no node found for provider id " ++ id)
        else
          match items with
          | [] => .error ("no node found for provider id " ++ id)
          | x :: _ => newNode cs x

/-- C10: with a node-name label configured getNodeByProviderID never
returns a node: a non-empty label-selector listing (one match included)
yields the multiple-nodes-found error and an empty listing the
no-node-found error; with the label unset it is exactly the
getNodeByName fallback, the only path that can succeed. -/
theorem getNodeByProviderID_label_behavior (cs : csCloud) (id : String) :
    (cs.nodeNameLabel ≠ "" →
      (∀ nd, getNodeByProviderID cs id ≠ .ok nd) ∧
      (∀ items, cs.kubeListNodes (cs.nodeNameLabel ++ "=" ++ id) = .ok items →
        (items ≠ [] →
          getNodeByProviderID cs id =
            .error ("multiple nodes found for provider id " ++ id)) ∧
        (items = [] →
          getNodeByProviderID cs id =
            .error ("no node found for provider id " ++ id)))) ∧
    (cs.nodeNameLabel = "" → getNodeByProviderID cs id = getNodeByName cs id) := by
  constructor
  · intro hlbl
    constructor
    · intro nd hok
      unfold getNodeByProviderID at hok
      rw [if_neg hlbl] at hok
      rcases hlist : cs.kubeListNodes (cs.nodeNameLabel ++ "=" ++ id) with e | items
      · rw [hlist] at hok
        exact Except.noConfusion hok
      · rw [hlist] at hok
        rcases items with _ | ⟨x, xs⟩
        · simp at hok
        · simp at hok
    · intro items hlist
      constructor
      · intro hne
        unfold getNodeByProviderID
        rw [if_neg hlbl]
        simp only [hlist]
        rw [if_pos (List.length_pos.mpr hne)]
      · intro he
        subst he
        unfold getNodeByProviderID
        rw [if_neg hlbl]
        simp only [hlist]
        simp
  · intro hlbl
    unfold getNodeByProviderID
    rw [if_pos hlbl]

/-- A service in namespace ns-a. -/
def svcA : Service := { ns := "ns-a", name := "svc-a", payload := 0 }

/-- A fresher snapshot of the same service. -/
def svcA2 : Service := { ns := "ns-a", name := "svc-a", payload := 1 }

/-- A service in namespace ns-b. -/
def svcB : Service := { ns := "ns-b", name := "svc-b", payload := 0 }

/-- A registry that accepts every service and knows no nodes. -/
def regShared : nodeRegistry :=
  { nodesForService := fun _ => Except.ok []
    nodesContainingService := fun _ => [] }

/-- A registry that rejects every service. -/
def regBad : nodeRegistry :=
  { nodesForService := fun _ => Except.error "no node for service"
    nodesContainingService := fun _ => [] }

/-- A registry whose inverse index gives svc-b revision 9 and every
other service revision 5. -/
def regRev : nodeRegistry :=
  { nodesForService := fun _ => Except.ok []
    nodesContainingService := fun k =>
      if k = serviceKeyOf svcB then
        [{ name := "n2", revision := 9, hostID := "h2", networkID := "net2", projectID := "p1" }]
      else
        [{ name := "n1", revision := 5, hostID := "h1", networkID := "net1", projectID := "p1" }] }

/-- An adapter on which every operation succeeds. -/
def adW : lbAdapter :=
  { getLoadBalancer := fun _ _ _ => Except.ok { rule := some 1 }
    shouldManageLB := fun _ => none
    syncNodes := fun _ _ _ => none
    updateLoadBalancerPool := fun _ => none }

/-- An adapter whose syncNodes fails. -/
def adFail : lbAdapter :=
  { getLoadBalancer := fun _ _ _ => Except.ok { rule := some 1 }
    shouldManageLB := fun _ => none
    syncNodes := fun _ _ _ => some "sync failed"
    updateLoadBalancerPool := fun _ => none }

/-- An adapter that would refuse to manage any LB. -/
def adSkip : lbAdapter :=
  { getLoadBalancer := fun _ _ _ => Except.error "unused"
    shouldManageLB := fun _ => some "not managed by this controller"
    syncNodes := fun _ _ _ => none
    updateLoadBalancerPool := fun _ => none }

/-- A plain ready entry for svc-a. -/
def itemW : queueEntry :=
  { service := svcA, lb := none, updatePool := false, start := 0, backoffUntil := 0 }

/-- C1 counterexample input: the entry already queued, updatePool =
false. -/
def eExist : queueEntry :=
  { service := svcA, lb := none, updatePool := false, start := 2, backoffUntil := 7 }

/-- C1 counterexample input: the incoming push, updatePool = true. -/
def eIn : queueEntry :=
  { service := svcA2, lb := some { rule := some 3 }, updatePool := true,
    start := 10, backoffUntil := 0 }

/-- C1 counterexample: pushing updatePool = true onto an existing
updatePool = false entry leaves updatePool = false; the claimed
OR-combination (which would give true) does not happen. -/
theorem push_coalesce_updatePool_lost :
    (qlookup (push regShared [(serviceKeyOf svcA, eExist)] eIn).1
        (serviceKeyOf eIn.service)).map queueEntry.updatePool = some false ∧
    (eExist.updatePool || eIn.updatePool) = true := by
  constructor
  · decide
  · decide

/-- C1 witness: the amended coalesce description holds on the same
concrete input. -/
theorem push_coalesce_fields_witness :
    (push regShared [(serviceKeyOf svcA, eExist)] eIn).2 = none ∧
    qlookup (push regShared [(serviceKeyOf svcA, eExist)] eIn).1
        (serviceKeyOf eIn.service) =
      some { eExist with service := eIn.service.deepCopy, lb := none } ∧
    ((push regShared [(serviceKeyOf svcA, eExist)] eIn).1.map Prod.fst).count
        (serviceKeyOf eIn.service) = 1 ∧
    (push regShared [(serviceKeyOf svcA, eExist)] eIn).1.map Prod.fst =
      [(serviceKeyOf svcA, eExist)].map Prod.fst :=
  push_coalesce_fields regShared [(serviceKeyOf svcA, eExist)] eIn eExist
    (by unfold keysNodup; decide) (by decide)

/-- C2 counterexample input: an entry popped with a cached lb. -/
def eCached : queueEntry :=
  { service := svcA, lb := some { rule := some 1 }, updatePool := false,
    start := 0, backoffUntil := 0 }

/-- C2 counterexample: on an entry with a non-nil lb, syncNodes runs
even though shouldManageLB, which would have said skip, is never
consulted. -/
theorem processQueueEntry_nonnil_lb_runs_sync :
    adapterEv.syncNodesEv ∈ (processQueueEntry regShared adSkip eCached).2 ∧
    adapterEv.shouldManageEv ∉ (processQueueEntry regShared adSkip eCached).2 := by
  constructor
  · decide
  · decide

/-- C2 witness: on a nil-lb entry the ordering theorem yields that the
reached syncNodes call was preceded by a shouldManageLB call. -/
theorem processQueueEntry_call_order_witness :
    adapterEv.shouldManageEv ∈ (processQueueEntry regShared adW itemW).2 :=
  ((processQueueEntry_call_order regShared adW itemW).1 rfl).2 (by decide)

/-- C3 inputs: an entry 15 seconds into backoff and a fresh push for
its key. -/
def eBack : queueEntry :=
  { service := svcA, lb := none, updatePool := false, start := 0, backoffUntil := 15 }

/-- The fresh push arriving while eBack is backed off. -/
def eFresh : queueEntry :=
  { service := svcA2, lb := none, updatePool := true, start := 10, backoffUntil := 0 }

/-- C3 counterexample: after the fresh push coalesces into the
backed-off entry, pop at the current time still returns nothing -- the
claimed immediate pop does not happen. -/
theorem coalesce_no_immediate_pop :
    pop regShared 0 (push regShared [(serviceKeyOf svcA, eBack)] eFresh).1 = none := by
  decide

/-- C3 witness: the amended behavior on the same input -- backoffUntil
survives the coalesce and the entry pops exactly once the backoff
expires. -/
theorem coalesce_preserves_backoff_witness :
    (push regShared [(serviceKeyOf svcA, eBack)] eFresh).1 =
      [(serviceKeyOf svcA, { eBack with service := eFresh.service.deepCopy, lb := none })] ∧
    pop regShared 0 (push regShared [(serviceKeyOf svcA, eBack)] eFresh).1 = none ∧
    pop regShared eBack.backoffUntil (push regShared [(serviceKeyOf svcA, eBack)] eFresh).1 =
      some ({ eBack with service := eFresh.service.deepCopy, lb := none }, []) :=
  coalesce_preserves_backoff regShared 0 (serviceKeyOf svcA) eBack eFresh
    rfl rfl (by decide)

/-- C4 counterexample: an item that fails before ever reaching
syncNodes bumps both counters while making zero syncNodes attempts, so
processed_total + failures_total does not equal the number of syncNodes
attempts. -/
theorem metrics_parity_fails :
    (handleItem regBad adW 0 [] itemW { processed := 0, failures := 0 }).metrics.processed +
      (handleItem regBad adW 0 [] itemW { processed := 0, failures := 0 }).metrics.failures ≠
    (handleItem regBad adW 0 [] itemW { processed := 0, failures := 0 }).syncAttempts := by
  decide

/-- C4 witness: the amended per-item accounting on the same input. -/
theorem handleItem_metrics_witness :
    (handleItem regBad adW 0 [] itemW { processed := 0, failures := 0 }).metrics.processed
      = 0 + 1 :=
  (handleItem_metrics regBad adW 0 [] itemW { processed := 0, failures := 0 }).1

/-- A ready entry for svc-a, queued first. -/
def eA5 : queueEntry :=
  { service := svcA, lb := none, updatePool := false, start := 0, backoffUntil := 0 }

/-- A ready entry for svc-b, queued later but with fresher nodes. -/
def eB5 : queueEntry :=
  { service := svcB, lb := none, updatePool := false, start := 1, backoffUntil := 0 }

/-- A two-entry queue with both entries ready. -/
def wQ5 : queueMap := [(serviceKeyOf svcA, eA5), (serviceKeyOf svcB, eB5)]

/-- C5 witness: with svc-b backed by a revision 9 node and svc-a by a
revision 5 node, the priority theorem applies to the concrete
two-entry queue. -/
theorem pop_priority_by_revision_witness :
    ∃ (r : queueEntry) (q2 : queueMap), pop regRev 0 wQ5 = some (r, q2) ∧
      (∃ p0 ∈ wQ5, p0.2 = r) ∧ r.backoffUntil ≤ 0 ∧
      ∀ p ∈ wQ5, p.2.backoffUntil ≤ 0 →
        topRevisionFor regRev p.1 < topRevisionFor regRev (serviceKeyOf r.service) ∨
        (topRevisionFor regRev p.1 = topRevisionFor regRev (serviceKeyOf r.service) ∧
          r.start ≤ p.2.start) :=
  pop_priority_by_revision regRev 0 wQ5 (by unfold wfQueue; decide)
    (serviceKeyOf svcA, eA5) (by decide) (by decide)

/-- The entry as re-enqueued by pushWithBackoff at time 0 with the
15-second default backoff. -/
def insC6 : queueEntry :=
  { service := svcA, lb := none, updatePool := false, start := 0, backoffUntil := 15 }

/-- C6 witness: a popped entry from the concrete two-entry queue has
reached its backoff, and after a concrete pushWithBackoff re-enqueue
the pop at time 5 returns a different key than the re-enqueued one. -/
theorem pop_respects_backoff_witness :
    eB5.backoffUntil ≤ 0 ∧
    serviceKeyOf eB5.service ≠ serviceKeyOf itemW.service :=
  ⟨(pop_respects_backoff regRev).1 0 wQ5 eB5 [(serviceKeyOf svcA, eA5)] (by decide),
   (pop_respects_backoff regRev).2 0 15 itemW [(serviceKeyOf svcB, eB5)]
     [(serviceKeyOf svcB, eB5), (serviceKeyOf svcA, insC6)]
     (by unfold keysNodup; decide) (by unfold wfQueue; decide) (by decide) (by decide)
     5 (by decide) eB5 [(serviceKeyOf svcA, insC6)] (by decide)⟩

/-- C7 witness: a fresh-key push is refused verbatim by the rejecting
registry, and inserted with a deep-copied service by the accepting
one. -/
theorem push_fresh_key_validates_witness :
    push regBad [] itemW = ([], some "no node for service") ∧
    qlookup (push regShared [] itemW).1 (serviceKeyOf itemW.service) =
      some { itemW with service := itemW.service.deepCopy } :=
  ⟨(push_fresh_key_validates regBad [] itemW (by decide)).1 "no node for service" rfl,
   ((push_fresh_key_validates regShared [] itemW (by decide)).2 [] rfl).2⟩

/-- C8 witness: a syncNodes failure on a concrete item bumps
failures_total by one and re-enqueues the item with backoffUntil
fifteen seconds ahead and lb cleared. -/
theorem handleItem_failure_path_witness :
    (handleItem regShared adFail 0 [] itemW
        { processed := 0, failures := 0 }).metrics.failures = 0 + 1 ∧
    qlookup (handleItem regShared adFail 0 [] itemW
        { processed := 0, failures := 0 }).queue (serviceKeyOf itemW.service) =
      some { itemW with
               service := itemW.service.deepCopy
               lb := none
               start := 0
               backoffUntil := 0 + defaultFailureBackoff } := by
  have h := (handleItem_failure_path regShared adFail 0 [] itemW
    { processed := 0, failures := 0 }).1 "sync failed" (by decide)
  exact ⟨h.1, h.2.2.2 (by decide) [] rfl⟩

/-- One worker about to reconcile itemW. -/
def entries9 : Fin 1 → queueEntry := fun _ => itemW

/-- The remaining program of that worker after its lock action. -/
def rest9 : List procEv :=
  [procEv.callEv adapterEv.nodesForServiceEv, procEv.unlockEv (serviceKeyOf itemW.service)]

/-- The system state after the single worker took its service lock. -/
def s9 : sysState 1 :=
  { owner := fun k2 => if k2 = serviceKeyOf itemW.service then some 0
      else (initState regBad adW entries9).owner k2
    progs := fun w2 => if w2 = 0 then rest9 else (initState regBad adW entries9).progs w2 }

/-- C9 witness: in the reachable state where the single worker stands
at its first adapter call, the mutual-exclusion theorem places it
inside its critical section. -/
theorem workers_mutual_exclusion_witness : inside entries9 s9 0 := by
  have hstep : sysStep (initState regBad adW entries9) s9 :=
    sysStep.lockStep (initState regBad adW entries9) 0 (serviceKeyOf itemW.service) rest9
      rfl rfl
  exact (workers_mutual_exclusion regBad adW entries9 s9
    (Relation.ReflTransGen.single hstep)).2 0 adapterEv.nodesForServiceEv
    [procEv.unlockEv (serviceKeyOf itemW.service)] (by decide)

/-- A kube node carrying the configured node-name label. -/
def metaW : objectMeta :=
  { name := "node1", labels := [("tsuru.io/iaas-id", "vm-1")], annots := [] }

/-- A CSCloud with a node-name label configured whose listing returns
exactly one matching node. -/
def csW : csCloud :=
  { nodeNameLabel := "tsuru.io/iaas-id"
    environmentLabel := "tsuru.io/datacenter"
    projectIDLabel := "tsuru.io/project-id"
    kubeGetNode := fun _ => Except.error "get unused"
    kubeListNodes := fun _ => Except.ok [metaW] }

/-- C10 witness: even an exactly-one-match listing yields the
multiple-nodes-found error when the node-name label is configured. -/
theorem getNodeByProviderID_label_behavior_witness :
    getNodeByProviderID csW "vm-1" =
      Except.error ("multiple nodes found for provider id " ++ "vm-1") :=
  (((getNodeByProviderID_label_behavior csW "vm-1").1 (by decide)).2 [metaW] rfl).1
    (by decide)
